import Mathlib

/-!
Shallow embedding of plot.py (miniTopSim, Aufgabe3_plot): the SurfacePlotter
class, its srf-file reader read_srf_file, the key dispatcher on_key_press, the
renderer update_plot, and the snapshot filename logic of the s key.

Python strings are Lean strings; a file is its list of lines (line terminators
dropped; float/int strip surrounding whitespace, so this is behavior
preserving).  Python floats are modelled as exact decimal values
(integer mantissa and decimal exponent): the claims only parse and carry
numeric literals, never do float arithmetic or compare differently written
literals, so this carries exactly the information float() extracts.  The
modelled float() grammar is the finite decimal core (sign, digits, point,
exponent); inf, nan and underscore separators are outside the modelled input
alphabet, as are non-ASCII numerals for str.isnumeric.  An np.empty(n)
buffer is a list of optional values initialised to none (uninitialised
memory); storing writes some v.
Exceptions are an explicit error type.
-/

namespace MiniTopSim

inductive PyErr where
  | valueError
  | indexError
  | typeError
  | attributeError
  | wrongFileExtensionError
  deriving DecidableEq, Repr

/-- Lift an option to an exception result, tagging none with the given
error. -/
def ofOption (e : PyErr) : Option α → Except PyErr α
  | some a => .ok a
  | none => .error e

/-- Python str.split(sep) for a one-character separator: splits at every
occurrence, keeping empty pieces; splitting the empty string gives one empty
piece. -/
def pySplitCh (sep : Char) : List Char → List (List Char)
  | [] => [[]]
  | c :: cs =>
    match pySplitCh sep cs with
    | [] => [[]]
    | t :: ts => if c = sep then [] :: t :: ts else (c :: t) :: ts

/-- Python split on Lean strings. -/
def pySplit (sep : Char) (s : String) : List String :=
  (pySplitCh sep s.1).map String.mk

/-- Whether pat matches at the head of l. -/
def matchesAt : List Char → List Char → Bool
  | [], _ => true
  | _ :: _, [] => false
  | p :: ps, c :: cs => p = c && matchesAt ps cs

/-- Python substring containment (the in operator), on char lists. -/
def hasSub (pat : List Char) : List Char → Bool
  | [] => matchesAt pat []
  | c :: cs => matchesAt pat (c :: cs) || hasSub pat cs

/-- Python str.endswith. -/
def pyEndsWith (s suf : String) : Bool :=
  matchesAt suf.1.reverse s.1.reverse

/-- The whitespace stripped by Python float() and int(). -/
def isPyWs (c : Char) : Bool :=
  c = ' ' || c = '\t' || c = '\n' || c = '\r' || c = '\x0c' || c = '\x0b'

/-- Strip whitespace from both ends. -/
def stripWs (cs : List Char) : List Char :=
  ((cs.dropWhile isPyWs).reverse.dropWhile isPyWs).reverse

/-- Optional sign; returns the sign as an integer and the rest. -/
def parseSign : List Char → Int × List Char
  | '+' :: cs => (1, cs)
  | '-' :: cs => (-1, cs)
  | cs => (1, cs)

/-- Decimal value of a digit run. -/
def digitsToNat (cs : List Char) : Nat :=
  cs.foldl (fun a c => a * 10 + (c.toNat - '0'.toNat)) 0

/-- The value a parsed float literal denotes: mant * 10 ^ exp, the sign
folded into the mantissa.  Identical literals give identical values; the
claims never compare values written differently (such as 1.0 against 1e0),
so structural equality suffices. -/
structure PyFloat where
  mant : Int
  exp : Int
  deriving DecidableEq, Repr

/-- The rational a PyFloat denotes. -/
def PyFloat.toRat (v : PyFloat) : ℚ := (v.mant : ℚ) * (10 : ℚ) ^ v.exp

/-- Value of a float literal with integer part ip, fraction part fp and
decimal exponent ex. -/
def floatVal (sgn : Int) (ip fp : List Char) (ex : Int) : PyFloat :=
  ⟨sgn * ((digitsToNat ip : Int) * 10 ^ fp.length + (digitsToNat fp : Int)),
   ex - fp.length⟩

/-- Exponent part of a float literal, then end of input. -/
def parseExpPart (sgn : Int) (ip fp : List Char) : List Char → Option PyFloat
  | [] => some (floatVal sgn ip fp 0)
  | c :: cs =>
    if c = 'e' || c = 'E' then
      let (es, cs') := parseSign cs
      let ed := cs'.takeWhile Char.isDigit
      if ed = [] || cs'.dropWhile Char.isDigit ≠ [] then none
      else some (floatVal sgn ip fp (es * (digitsToNat ed : Int)))
    else none

/-- Python float(s) on the finite decimal grammar. -/
def pyFloat? (s : String) : Option PyFloat :=
  let cs := stripWs s.1
  let (sgn, cs) := parseSign cs
  let ip := cs.takeWhile Char.isDigit
  match cs.dropWhile Char.isDigit with
  | '.' :: cs2 =>
    let fp := cs2.takeWhile Char.isDigit
    if ip = [] ∧ fp = [] then none
    else parseExpPart sgn ip fp (cs2.dropWhile Char.isDigit)
  | rest => if ip = [] then none else parseExpPart sgn ip [] rest

/-- Python int(s): optional sign, one or more digits, nothing else. -/
def pyInt? (s : String) : Option Int :=
  let cs := stripWs s.1
  let (sgn, cs) := parseSign cs
  if cs ≠ [] ∧ cs.all Char.isDigit then some (sgn * (digitsToNat cs : Int))
  else none

/-- Python str.isnumeric, restricted to the ASCII key alphabet. -/
def pyIsnumeric (s : String) : Bool :=
  s.1 ≠ [] && s.1.all Char.isDigit

/-- Write v at position n of a list, none when out of range. -/
def setNth : List α → Nat → α → Option (List α)
  | [], _, _ => none
  | _ :: t, 0, v => some (v :: t)
  | h :: t, n + 1, v => (setNth t n v).map (h :: ·)

/-- Python list subscript with an int index: negative indices count from the
end; out of range raises IndexError. -/
def pyGet (l : List α) (i : Int) : Except PyErr α :=
  let i' := if i < 0 then i + l.length else i
  if i' < 0 then .error .indexError
  else
    match l.get? i'.toNat with
    | some a => .ok a
    | none => .error .indexError

/-- Python list subscript assignment. -/
def pySet (l : List α) (i : Int) (v : α) : Except PyErr (List α) :=
  let i' := if i < 0 then i + l.length else i
  if i' < 0 then .error .indexError
  else
    match setNth l i'.toNat v with
    | some l' => .ok l'
    | none => .error .indexError

/-- Numpy setitem with a nonnegative cursor: out of bounds raises
IndexError. -/
def npStore (buf : List (Option PyFloat)) (j : Nat) (v : PyFloat) :
    Except PyErr (List (Option PyFloat)) :=
  ofOption .indexError (setNth buf j (some v))

/-- The header marker the line test looks for. -/
def markerChars : List Char := "surface:".1

/-! ## read_srf_file -/

/-- The loop state of read_srf_file.  In Python the point buffers are
appended to xPointsList/yPointsList when their header is read and then
mutated in place through the xPoints/yPoints aliases; here the buffers of
the frame still being filled live in cur and are flushed into doneX/doneY
when the next header (or the end of file) finalises them — the observable
lists agree.  j is the per-frame cursor, i the header count. -/
structure PSt where
  timeList : List PyFloat
  nPointList : List Int
  doneX : List (List (Option PyFloat))
  doneY : List (List (Option PyFloat))
  cur : Option (List (Option PyFloat) × List (Option PyFloat))
  j : Nat
  i : Nat
  deriving Repr

def initPSt : PSt := ⟨[], [], [], [], none, 0, 0⟩

/-- Move the in-progress buffers into the finished lists. -/
def flushCur (st : PSt) : PSt :=
  match st.cur with
  | none => st
  | some (x, y) =>
    { st with doneX := st.doneX ++ [x], doneY := st.doneY ++ [y], cur := none }

/-- One iteration of the line loop of read_srf_file, in evaluation order.
A header line extracts time and npoints (a missing field raises IndexError,
an unparsable number ValueError, np.empty of a negative count ValueError)
and allocates fresh buffers.  Every other line is a data line: its first
field is parsed (ValueError), stored at the cursor (TypeError when no header
has allocated buffers yet, IndexError past the allocated size), then the
second field likewise. -/
def processLine (st : PSt) (line : String) : Except PyErr PSt :=
  if hasSub markerChars line.1 then
    let sa := pySplit ' ' line
    match pyGet sa 1 with
    | .error e => .error e
    | .ok tStr =>
      match pyFloat? tStr with
      | none => .error .valueError
      | some t =>
        match pyGet sa 2 with
        | .error e => .error e
        | .ok nStr =>
          match pyInt? nStr with
          | none => .error .valueError
          | some n =>
            if n < 0 then .error .valueError
            else
              let st := flushCur st
              .ok { st with
                      timeList := st.timeList ++ [t]
                      nPointList := st.nPointList ++ [n]
                      cur := some (List.replicate n.toNat none,
                                   List.replicate n.toNat none)
                      j := 0
                      i := st.i + 1 }
  else
    let sa := pySplit ' ' line
    match pyGet sa 0 with
    | .error e => .error e
    | .ok xStr =>
      match pyFloat? xStr with
      | none => .error .valueError
      | some x =>
        match st.cur with
        | none => .error .typeError
        | some (xs, ys) =>
          match npStore xs st.j x with
          | .error e => .error e
          | .ok xs =>
            match pyGet sa 1 with
            | .error e => .error e
            | .ok yStr =>
              match pyFloat? yStr with
              | none => .error .valueError
              | some y =>
                match npStore ys st.j y with
                | .error e => .error e
                | .ok ys => .ok { st with cur := some (xs, ys), j := st.j + 1 }

/-- The whole line loop. -/
def processLines (st : PSt) : List String → Except PyErr PSt
  | [] => .ok st
  | l :: ls =>
    match processLine st l with
    | .error e => .error e
    | .ok st' => processLines st' ls

/-- The data read_srf_file leaves on the plotter. -/
structure Parsed where
  timeList : List PyFloat
  nPointList : List Int
  xPointsList : List (List (Option PyFloat))
  yPointsList : List (List (Option PyFloat))
  length : Int
  alreadyPlottedList : List Bool
  deriving Repr, DecidableEq

/-- Embedding of read_srf_file on a file given as its list of lines:
extension check, line loop, then length is the header count and
alreadyPlottedList a list of that many False flags. -/
def read_srf_file (filename : String) (lines : List String) :
    Except PyErr Parsed :=
  if pyEndsWith filename (".srf_save") || pyEndsWith filename (".srf") then
    match processLines initPSt lines with
    | .error e => .error e
    | .ok st =>
      let st := flushCur st
      .ok ⟨st.timeList, st.nPointList, st.doneX, st.doneY, (st.i : Int),
           List.replicate st.i false⟩
  else .error .wrongFileExtensionError

/-! ## Plotter state, figure, update_plot -/

/-- The render-affecting attributes of the SurfacePlotter class.  ylim
models the ylim attribute set by the b key (absent until then: reading none
raises AttributeError); the unused yLim of the constructor is not
render-affecting and is omitted. -/
structure KState where
  filename : String
  xPointsList : List (List (Option PyFloat))
  yPointsList : List (List (Option PyFloat))
  timeList : List PyFloat
  nPointList : List Int
  alreadyPlottedList : List Bool
  surfaceIndex : Int
  forwardDirectory : Bool
  length : Int
  aspectRatioAuto : Bool
  deletePlotMode : Bool
  stepSize : Int
  boundaryModeAuto : Bool
  ylim : Option (PyFloat × PyFloat)
  deriving Repr, DecidableEq

/-- The plotter after the constructor and a successful read_srf_file. -/
def KState.init (filename : String) (p : Parsed) : KState where
  filename := filename
  xPointsList := p.xPointsList
  yPointsList := p.yPointsList
  timeList := p.timeList
  nPointList := p.nPointList
  alreadyPlottedList := p.alreadyPlottedList
  surfaceIndex := 0
  forwardDirectory := true
  length := p.length
  aspectRatioAuto := true
  deletePlotMode := true
  stepSize := 1
  boundaryModeAuto := true
  ylim := none

/-- The matplotlib figure, reduced to what the module touches: the plotted
lines (each plot call keeps its data and, standing in for the rendered time
label, its time value), the current y-axis extent, the aspect constraint,
and the decorations set on every redraw.  The set_position call moves
geometry only and is not modelled. -/
structure Fig where
  lines : List (List (Option PyFloat) × List (Option PyFloat) × PyFloat)
  ylimAx : PyFloat × PyFloat
  aspectEq : Bool
  xlabel : String
  ylabel : String
  title : String
  grid : Bool
  legendOuter : Bool
  deriving Repr, DecidableEq

/-- Model of clf: an empty axes with the default y-extent. -/
def Fig.clf : Fig := ⟨[], (⟨0, 0⟩, ⟨1, 0⟩), false, "", "", "", false, false⟩

/-- A fresh figure. -/
def Fig.init : Fig := Fig.clf

/-- The loop resetting the already-plotted flags over range(length): first n
entries set to False, IndexError past the end of the list. -/
def setFirstFalse : List Bool → Nat → Except PyErr (List Bool)
  | l, 0 => .ok l
  | [], _ + 1 => .error .indexError
  | _ :: t, n + 1 =>
    match setFirstFalse t n with
    | .error e => .error e
    | .ok r => .ok (false :: r)

/-- The clear branch of update_plot: when deletePlotMode holds the figure is
cleared and every already-plotted flag reset. -/
def clearStep (st : KState) (fig : Fig) : Except PyErr (KState × Fig) :=
  if st.deletePlotMode then
    match setFirstFalse st.alreadyPlottedList st.length.toNat with
    | .error e => .error e
    | .ok apl => .ok ({ st with alreadyPlottedList := apl }, Fig.clf)
  else .ok (st, fig)

/-- The draw branch of update_plot: if the current surface is not yet
plotted, plot it with its time label and mark it plotted; the plotted data
and the flag assignment are read and written at surfaceIndex. -/
def drawStep (st : KState) (fig : Fig) : Except PyErr (KState × Fig) :=
  match pyGet st.alreadyPlottedList st.surfaceIndex with
  | .error e => .error e
  | .ok flag =>
    if flag = false then
      match pyGet st.xPointsList st.surfaceIndex,
            pyGet st.yPointsList st.surfaceIndex,
            pyGet st.timeList st.surfaceIndex,
            pySet st.alreadyPlottedList st.surfaceIndex true with
      | .ok xs, .ok ys, .ok t, .ok apl =>
        .ok ({ st with alreadyPlottedList := apl },
             { fig with lines := fig.lines ++ [(xs, ys, t)] })
      | .error e, _, _, _ => .error e
      | _, .error e, _, _ => .error e
      | _, _, .error e, _ => .error e
      | _, _, _, .error e => .error e
    else .ok (st, fig)

/-- The y-boundary branch: with fixed boundaries the captured extent is
applied (reading the attribute raises AttributeError when it was never
set). -/
def boundsStep (st : KState) (fig : Fig) : Except PyErr Fig :=
  if st.boundaryModeAuto = false then
    match st.ylim with
    | none => .error .attributeError
    | some v => .ok { fig with ylimAx := v }
  else .ok fig

/-- The aspect branch: a 1:1 aspect is forced when not automatic. -/
def aspectStep (st : KState) (fig : Fig) : Fig :=
  if st.aspectRatioAuto = false then { fig with aspectEq := true } else fig

/-- The unconditional tail of update_plot: legend outside the axes, labels,
title, grid. -/
def decorate (fig : Fig) : Fig :=
  { fig with
      legendOuter := true
      xlabel := "x in nm"
      ylabel := "y in nm"
      title := "Surfaces: 2D-Plot"
      grid := true }

/-- Embedding of update_plot in source order: clear (maybe), draw (maybe),
apply bounds, apply aspect, decorate, draw the canvas. -/
def update_plot (st : KState) (fig : Fig) : Except PyErr (KState × Fig) :=
  match clearStep st fig with
  | .error e => .error e
  | .ok (st, fig) =>
    match drawStep st fig with
    | .error e => .error e
    | .ok (st, fig) =>
      match boundsStep st fig with
      | .error e => .error e
      | .ok fig => .ok (st, decorate (aspectStep st fig))

/-! ## on_key_press -/

/-- What one call of on_key_press produces: the new state, the figure,
whether the branch fell through to update_plot (an immediate redraw), the
filename passed to savefig if any, and whether the plot was closed. -/
structure KeyResult where
  st : KState
  fig : Fig
  redraw : Bool
  saved : Option String
  closed : Bool
  deriving Repr, DecidableEq

/-- The target name used by the s key: everything before the first dot of
the full filename, with png appended. -/
def savedName (s : String) : String :=
  String.mk ((pySplitCh '.' s.1).headI) ++ ".png"

/-- Branches that fall through the elif chain call update_plot. -/
def finishDraw (st : KState) (fig : Fig) : Except PyErr KeyResult :=
  match update_plot st fig with
  | .error e => .error e
  | .ok (st, fig) => .ok ⟨st, fig, true, none, false⟩

/-- Embedding of on_key_press, branch for branch.  The keys r, d, s, q and
numeric keys return before update_plot; the keys l, f, space, a, b and
every unbound key fall through to it. -/
def on_key_press (key : String) (st : KState) (fig : Fig) :
    Except PyErr KeyResult :=
  if key = "l" then
    finishDraw { st with surfaceIndex := st.length - 1 } fig
  else if key = "f" then
    finishDraw { st with surfaceIndex := 0 } fig
  else if key = " " then
    let st :=
      if st.forwardDirectory = true then
        let si := st.surfaceIndex + st.stepSize
        { st with surfaceIndex := if si ≥ st.length then 0 else si }
      else
        let si := st.surfaceIndex - st.stepSize
        { st with surfaceIndex := if si ≤ -1 then st.length - 1 else si }
    finishDraw st fig
  else if key = "r" then
    .ok ⟨{ st with forwardDirectory := !st.forwardDirectory }, fig, false,
         none, false⟩
  else if key = "a" then
    finishDraw { st with aspectRatioAuto := !st.aspectRatioAuto } fig
  else if key = "d" then
    .ok ⟨{ st with deletePlotMode := !st.deletePlotMode }, fig, false,
         none, false⟩
  else if key = "s" then
    .ok ⟨st, fig, false, some (savedName st.filename), false⟩
  else if key = "b" then
    let st := { st with boundaryModeAuto := !st.boundaryModeAuto }
    let st :=
      if st.boundaryModeAuto = false then { st with ylim := some fig.ylimAx }
      else st
    finishDraw st fig
  else if key = "q" then
    .ok ⟨st, fig, false, none, true⟩
  else if pyIsnumeric key = true then
    .ok ⟨{ st with stepSize := 2 ^ ((pyInt? key).getD 0).toNat }, fig, false,
         none, false⟩
  else
    finishDraw st fig

/-! ## Shared concrete data -/

instance [DecidableEq ε] [DecidableEq α] : DecidableEq (Except ε α)
  | .ok a, .ok b =>
    if h : a = b then .isTrue (by rw [h]) else .isFalse (by simp [h])
  | .error a, .error b =>
    if h : a = b then .isTrue (by rw [h]) else .isFalse (by simp [h])
  | .ok _, .error _ => .isFalse (by simp)
  | .error _, .ok _ => .isFalse (by simp)

/-- A one-frame parse result (time 0, zero points) used as concrete input. -/
def exParsed : Parsed := ⟨[⟨0, 0⟩], [0], [[]], [[]], 1, [false]⟩

/-- A freshly initialised plotter over `exParsed`. -/
def exSt : KState := KState.init ("trench.srf") exParsed

/-- The redraw flag of a dispatch result (false when it raised). -/
def resRedrawOf : Except PyErr KeyResult → Bool
  | .ok r => r.redraw
  | .error _ => false

/-! ## update_plot touches nothing but the already-plotted flags -/

/-- Equality of every plotter attribute except alreadyPlottedList. -/
def sameNav (a b : KState) : Prop :=
  a.filename = b.filename ∧ a.xPointsList = b.xPointsList ∧
  a.yPointsList = b.yPointsList ∧ a.timeList = b.timeList ∧
  a.nPointList = b.nPointList ∧ a.surfaceIndex = b.surfaceIndex ∧
  a.forwardDirectory = b.forwardDirectory ∧ a.length = b.length ∧
  a.aspectRatioAuto = b.aspectRatioAuto ∧
  a.deletePlotMode = b.deletePlotMode ∧ a.stepSize = b.stepSize ∧
  a.boundaryModeAuto = b.boundaryModeAuto ∧ a.ylim = b.ylim

theorem sameNav_trans {a b c : KState} (h1 : sameNav a b) (h2 : sameNav b c) :
    sameNav a c := by
  obtain ⟨p1, p2, p3, p4, p5, p6, p7, p8, p9, p10, p11, p12, p13⟩ := h1
  obtain ⟨q1, q2, q3, q4, q5, q6, q7, q8, q9, q10, q11, q12, q13⟩ := h2
  exact ⟨p1.trans q1, p2.trans q2, p3.trans q3, p4.trans q4, p5.trans q5,
         p6.trans q6, p7.trans q7, p8.trans q8, p9.trans q9, p10.trans q10,
         p11.trans q11, p12.trans q12, p13.trans q13⟩

theorem clearStep_sameNav (st : KState) (fig : Fig) (st' : KState) (fig' : Fig)
    (h : clearStep st fig = .ok (st', fig')) : sameNav st' st := by
  unfold clearStep at h
  split at h
  · split at h
    · exact Except.noConfusion h
    · simp only [Except.ok.injEq, Prod.mk.injEq] at h
      obtain ⟨h1, -⟩ := h
      subst h1
      simp [sameNav]
  · simp only [Except.ok.injEq, Prod.mk.injEq] at h
    obtain ⟨h1, -⟩ := h
    subst h1
    simp [sameNav]

theorem drawStep_sameNav (st : KState) (fig : Fig) (st' : KState) (fig' : Fig)
    (h : drawStep st fig = .ok (st', fig')) : sameNav st' st := by
  unfold drawStep at h
  split at h
  · exact Except.noConfusion h
  · split at h
    · split at h
      · simp only [Except.ok.injEq, Prod.mk.injEq] at h
        obtain ⟨h1, -⟩ := h
        subst h1
        simp [sameNav]
      · exact Except.noConfusion h
      · exact Except.noConfusion h
      · exact Except.noConfusion h
      · exact Except.noConfusion h
    · simp only [Except.ok.injEq, Prod.mk.injEq] at h
      obtain ⟨h1, -⟩ := h
      subst h1
      simp [sameNav]

theorem update_plot_sameNav (st : KState) (fig : Fig) (st' : KState)
    (fig' : Fig) (h : update_plot st fig = .ok (st', fig')) :
    sameNav st' st := by
  unfold update_plot at h
  split at h
  · exact Except.noConfusion h
  next st1 fig1 hc =>
    split at h
    · exact Except.noConfusion h
    next st2 fig2 hd =>
      split at h
      · exact Except.noConfusion h
      next fig3 hb =>
        simp only [Except.ok.injEq, Prod.mk.injEq] at h
        obtain ⟨h1, -⟩ := h
        subst h1
        exact sameNav_trans (drawStep_sameNav st1 fig1 st2 fig2 hd)
          (clearStep_sameNav st fig st1 fig1 hc)

theorem finishDraw_ok (st : KState) (fig : Fig) (r : KeyResult)
    (h : finishDraw st fig = .ok r) :
    sameNav r.st st ∧ r.redraw = true ∧ r.saved = none ∧ r.closed = false := by
  unfold finishDraw at h
  split at h
  · exact Except.noConfusion h
  next st1 fig1 hu =>
    simp only [Except.ok.injEq] at h
    subst h
    exact ⟨update_plot_sameNav st fig st1 fig1 hu, rfl, rfl, rfl⟩

/-! ## C1 — declared point count versus data lines -/

/-- C1 counterexample: a header declaring npoints equal to 3 followed by only
2 data lines before end of file is accepted by read_srf_file — the frame is
returned with its third slot uninitialised — refuting the claim that every
count mismatch fails with a format error. -/
theorem c1_counterexample :
    read_srf_file ("trench.srf")
      ["surface: 1.0 3 x-positions y-positions", "0.0 0.0", "1.0 1.0"] =
    .ok ⟨[⟨10, -1⟩], [3], [[some ⟨0, -1⟩, some ⟨10, -1⟩, none]],
         [[some ⟨0, -1⟩, some ⟨10, -1⟩, none]], 1, [false]⟩ := by
  decide

/-! ## C4 — empty file -/

/-- C4 counterexample: parsing an empty file is not an error — read_srf_file
returns an empty frame set of length 0 — refuting the claim that every
successfully parsed frame set is non-empty. -/
theorem c4_counterexample :
    read_srf_file ("trench.srf") [] = .ok ⟨[], [], [], [], 0, []⟩ := by
  rfl

/-- C4 amended: parsing an empty file succeeds with a frame set of length 0,
and the first render pass over that state fails with an index error, so a
zero-frame input never yields a silently empty view. -/
theorem c4_theorem :
    read_srf_file ("trench.srf") [] = .ok ⟨[], [], [], [], 0, []⟩ ∧
    update_plot (KState.init ("trench.srf") ⟨[], [], [], [], 0, []⟩) Fig.init =
      .error .indexError := by
  exact ⟨rfl, rfl⟩

/-! ## C6 — snapshot file name -/

/-- C6 counterexample: for the source file name a.b.srf the s key saves to
a.png, not to the base name with the extension replaced (a.b.png), refuting
the claim for names containing more than one dot. -/
theorem c6_counterexample :
    on_key_press ("s") (KState.init ("a.b.srf") exParsed) Fig.init =
      .ok ⟨KState.init ("a.b.srf") exParsed, Fig.init, false, some ("a.png"),
           false⟩ ∧
    ("a.png" : String) ≠ ("a.b.png") := by
  exact ⟨rfl, by decide⟩

/-! ## C2 — unrecognized keys -/

/-- C2 counterexample: the unbound key z falls through the dispatch chain to
update_plot, so a redraw of the plotting surface is triggered, refuting the
claim that unrecognized keys do not trigger a redraw. -/
theorem c2_counterexample :
    resRedrawOf (on_key_press ("z") exSt Fig.init) = true := by
  decide

/-! ## C7 — field separation -/

/-- C7 counterexample: a well-formed file whose data fields are separated by
two spaces fails to parse (the empty field between the spaces is fed to
float), while the single-space form parses, refuting the claim that
arbitrary whitespace separation is accepted. -/
theorem c7_counterexample :
    read_srf_file ("trench.srf")
      ["surface: 0.0 1 x-positions y-positions", "1.0  2.0"] =
      .error .valueError ∧
    read_srf_file ("trench.srf")
      ["surface: 0.0 1 x-positions y-positions", "1.0 2.0"] =
      .ok ⟨[⟨0, -1⟩], [1], [[some ⟨10, -1⟩]], [[some ⟨20, -1⟩]], 1,
           [false]⟩ := by
  exact ⟨rfl, rfl⟩

/-! ## C3 — the advance algorithm of the space key -/

/-- C3: pressing space advances surfaceIndex by stepSize when the direction
is forward, resetting to exactly 0 when the sum reaches length, and moves it
back by stepSize when backward, resetting to exactly length - 1 when the
difference reaches -1. -/
theorem c3_theorem (st : KState) (fig : Fig) (r : KeyResult)
    (h : on_key_press (" ") st fig = .ok r) :
    r.st.surfaceIndex =
      if st.forwardDirectory then
        if st.surfaceIndex + st.stepSize ≥ st.length then 0
        else st.surfaceIndex + st.stepSize
      else
        if st.surfaceIndex - st.stepSize ≤ -1 then st.length - 1
        else st.surfaceIndex - st.stepSize := by
  unfold on_key_press at h
  rw [if_neg (by decide), if_neg (by decide), if_pos rfl] at h
  cases hd : st.forwardDirectory with
  | true =>
    simp only [hd, if_true, if_pos rfl] at h ⊢
    obtain ⟨hnav, -, -, -⟩ := finishDraw_ok _ _ _ h
    obtain ⟨-, -, -, -, -, h6, -⟩ := hnav
    simpa using h6
  | false =>
    simp only [hd, if_false, Bool.false_eq_true] at h ⊢
    obtain ⟨hnav, -, -, -⟩ := finishDraw_ok _ _ _ h
    obtain ⟨-, -, -, -, -, h6, -⟩ := hnav
    simpa using h6

/-- The result of pressing space on the concrete one-frame state. -/
def c3r : KeyResult :=
  match on_key_press (" ") exSt Fig.init with
  | .ok r => r
  | .error _ => ⟨exSt, Fig.init, false, none, false⟩

/-- C3 witness: on the concrete one-frame state (index 0, step 1, length 1,
forward) the space key wraps the index to exactly 0. -/
theorem c3_witness :
    c3r.st.surfaceIndex =
      if exSt.forwardDirectory then
        if exSt.surfaceIndex + exSt.stepSize ≥ exSt.length then 0
        else exSt.surfaceIndex + exSt.stepSize
      else
        if exSt.surfaceIndex - exSt.stepSize ≤ -1 then exSt.length - 1
        else exSt.surfaceIndex - exSt.stepSize :=
  c3_theorem exSt Fig.init c3r rfl

/-! ## C8 — mode toggles do not touch navigation -/

/-- C8: toggling the aspect mode (a) or the boundary mode (b) never mutates
surfaceIndex, forwardDirectory, stepSize or deletePlotMode, and the r key
flips forwardDirectory while changing nothing else. -/
theorem c8_theorem (st : KState) (fig : Fig) :
    (∀ r, on_key_press ("a") st fig = .ok r →
       r.st.surfaceIndex = st.surfaceIndex ∧
       r.st.forwardDirectory = st.forwardDirectory ∧
       r.st.stepSize = st.stepSize ∧
       r.st.deletePlotMode = st.deletePlotMode) ∧
    (∀ r, on_key_press ("b") st fig = .ok r →
       r.st.surfaceIndex = st.surfaceIndex ∧
       r.st.forwardDirectory = st.forwardDirectory ∧
       r.st.stepSize = st.stepSize ∧
       r.st.deletePlotMode = st.deletePlotMode) ∧
    on_key_press ("r") st fig =
      .ok ⟨{ st with forwardDirectory := !st.forwardDirectory }, fig, false,
           none, false⟩ := by
  refine ⟨?_, ?_, ?_⟩
  · intro r h
    unfold on_key_press at h
    rw [if_neg (by decide), if_neg (by decide), if_neg (by decide),
        if_neg (by decide), if_pos rfl] at h
    obtain ⟨hnav, -, -, -⟩ := finishDraw_ok _ _ _ h
    obtain ⟨-, -, -, -, -, h6, h7, -, -, h10, h11, -⟩ := hnav
    simp only at h6 h7 h10 h11
    exact ⟨h6, h7, h11, h10⟩
  · intro r h
    unfold on_key_press at h
    rw [if_neg (by decide), if_neg (by decide), if_neg (by decide),
        if_neg (by decide), if_neg (by decide), if_neg (by decide),
        if_neg (by decide), if_pos rfl] at h
    obtain ⟨hnav, -, -, -⟩ := finishDraw_ok _ _ _ h
    obtain ⟨-, -, -, -, -, h6, h7, -, -, h10, h11, -⟩ := hnav
    split at h6 <;> split at h7 <;> split at h10 <;> split at h11 <;>
      simp_all
  · rfl

/-- The result of pressing a on the concrete one-frame state. -/
def c8r : KeyResult :=
  match on_key_press ("a") exSt Fig.init with
  | .ok r => r
  | .error _ => ⟨exSt, Fig.init, false, none, false⟩

/-- C8 witness: on the concrete one-frame state the a key leaves
surfaceIndex, forwardDirectory, stepSize and deletePlotMode unchanged. -/
theorem c8_witness :
    c8r.st.surfaceIndex = exSt.surfaceIndex ∧
    c8r.st.forwardDirectory = exSt.forwardDirectory ∧
    c8r.st.stepSize = exSt.stepSize ∧
    c8r.st.deletePlotMode = exSt.deletePlotMode :=
  (c8_theorem exSt Fig.init).1 c8r rfl

/-! ## C2 — unbound keys: state untouched, but a redraw happens -/

/-- C2 amended: a key that is none of the bound keys and not numeric leaves
every navigation and mode attribute of the plotter unchanged, but does
trigger an immediate redraw by falling through to update_plot (which may
update the already-plotted flags as part of that render pass). -/
theorem c2_theorem (key : String) (st : KState) (fig : Fig) (r : KeyResult)
    (hk : key ∉ (["l", "f", " ", "r", "a", "d", "s", "b", "q"] : List String))
    (hn : pyIsnumeric key = false)
    (h : on_key_press key st fig = .ok r) :
    r.st.surfaceIndex = st.surfaceIndex ∧
    r.st.forwardDirectory = st.forwardDirectory ∧
    r.st.stepSize = st.stepSize ∧
    r.st.deletePlotMode = st.deletePlotMode ∧
    r.st.aspectRatioAuto = st.aspectRatioAuto ∧
    r.st.boundaryModeAuto = st.boundaryModeAuto ∧
    r.st.ylim = st.ylim ∧
    r.redraw = true := by
  simp only [List.mem_cons, List.not_mem_nil, or_false, not_or] at hk
  obtain ⟨h1, h2, h3, h4, h5, h6, h7, h8, h9⟩ := hk
  unfold on_key_press at h
  rw [if_neg h1, if_neg h2, if_neg h3, if_neg h4, if_neg h5, if_neg h6,
      if_neg h7, if_neg h8, if_neg h9, if_neg (by simp [hn])] at h
  obtain ⟨hnav, hr, -, -⟩ := finishDraw_ok _ _ _ h
  obtain ⟨-, -, -, -, -, g6, g7, -, g9, g10, g11, g12, g13⟩ := hnav
  exact ⟨g6, g7, g11, g10, g9, g12, g13, hr⟩

/-- The result of pressing the unbound key z on the concrete state. -/
def c2r : KeyResult :=
  match on_key_press ("z") exSt Fig.init with
  | .ok r => r
  | .error _ => ⟨exSt, Fig.init, false, none, false⟩

/-- C2 witness: the unbound key z on the concrete one-frame state leaves
all navigation and mode attributes unchanged and reports a redraw. -/
theorem c2_witness :
    c2r.st.surfaceIndex = exSt.surfaceIndex ∧
    c2r.st.forwardDirectory = exSt.forwardDirectory ∧
    c2r.st.stepSize = exSt.stepSize ∧
    c2r.st.deletePlotMode = exSt.deletePlotMode ∧
    c2r.st.aspectRatioAuto = exSt.aspectRatioAuto ∧
    c2r.st.boundaryModeAuto = exSt.boundaryModeAuto ∧
    c2r.st.ylim = exSt.ylim ∧
    c2r.redraw = true :=
  c2_theorem ("z") exSt Fig.init c2r (by decide) (by decide) rfl

/-! ## C9 — surfaceIndex stays in range -/

/-- The index invariant of the viewer: surfaceIndex within the frame list
and a positive step. -/
abbrev StInv (st : KState) : Prop :=
  0 ≤ st.surfaceIndex ∧ st.surfaceIndex < st.length ∧ 1 ≤ st.stepSize

theorem finishDraw_inv (st : KState) (fig : Fig) (r : KeyResult)
    (h : finishDraw st fig = .ok r) (hi : StInv st) : StInv r.st := by
  obtain ⟨hnav, -, -, -⟩ := finishDraw_ok _ _ _ h
  obtain ⟨-, -, -, -, -, h6, -, h8, -, -, h11, -⟩ := hnav
  obtain ⟨i1, i2, i3⟩ := hi
  exact ⟨by omega, by omega, by omega⟩

/-- C9: for a state built from a non-empty parse result the surface index
starts inside the valid range, and every key dispatch that returns normally
keeps it inside the range. -/
theorem c9_theorem (fn : String) (p : Parsed) (key : String) (st : KState)
    (fig : Fig) (r : KeyResult) :
    (1 ≤ p.length → StInv (KState.init fn p)) ∧
    (StInv st → on_key_press key st fig = .ok r → StInv r.st) := by
  constructor
  · intro hp
    exact ⟨Int.le_refl 0, show (0 : Int) < p.length by omega, Int.le_refl 1⟩
  · intro hinv h
    obtain ⟨i1, i2, i3⟩ := hinv
    unfold on_key_press at h
    by_cases k1 : key = "l"
    · rw [if_pos k1] at h
      exact finishDraw_inv _ _ _ h
        ⟨show (0 : Int) ≤ st.length - 1 by omega,
         show st.length - 1 < st.length by omega, i3⟩
    rw [if_neg k1] at h
    by_cases k2 : key = "f"
    · rw [if_pos k2] at h
      exact finishDraw_inv _ _ _ h
        ⟨Int.le_refl 0, show (0 : Int) < st.length by omega, i3⟩
    rw [if_neg k2] at h
    by_cases k3 : key = " "
    · rw [if_pos k3] at h
      simp only [] at h
      refine finishDraw_inv _ _ _ h ?_
      by_cases hf : st.forwardDirectory = true
      · rw [if_pos hf]
        refine ⟨?_, ?_, i3⟩
        · show (0 : Int) ≤
            if st.surfaceIndex + st.stepSize ≥ st.length then 0
            else st.surfaceIndex + st.stepSize
          split <;> omega
        · show (if st.surfaceIndex + st.stepSize ≥ st.length then 0
            else st.surfaceIndex + st.stepSize) < st.length
          split <;> omega
      · rw [if_neg hf]
        refine ⟨?_, ?_, i3⟩
        · show (0 : Int) ≤
            if st.surfaceIndex - st.stepSize ≤ -1 then st.length - 1
            else st.surfaceIndex - st.stepSize
          split <;> omega
        · show (if st.surfaceIndex - st.stepSize ≤ -1 then st.length - 1
            else st.surfaceIndex - st.stepSize) < st.length
          split <;> omega
    rw [if_neg k3] at h
    by_cases k4 : key = "r"
    · rw [if_pos k4] at h
      simp only [Except.ok.injEq] at h
      subst h
      exact ⟨i1, i2, i3⟩
    rw [if_neg k4] at h
    by_cases k5 : key = "a"
    · rw [if_pos k5] at h
      exact finishDraw_inv _ _ _ h ⟨i1, i2, i3⟩
    rw [if_neg k5] at h
    by_cases k6 : key = "d"
    · rw [if_pos k6] at h
      simp only [Except.ok.injEq] at h
      subst h
      exact ⟨i1, i2, i3⟩
    rw [if_neg k6] at h
    by_cases k7 : key = "s"
    · rw [if_pos k7] at h
      simp only [Except.ok.injEq] at h
      subst h
      exact ⟨i1, i2, i3⟩
    rw [if_neg k7] at h
    by_cases k8 : key = "b"
    · rw [if_pos k8] at h
      simp only [] at h
      refine finishDraw_inv _ _ _ h ?_
      split <;> exact ⟨i1, i2, i3⟩
    rw [if_neg k8] at h
    by_cases k9 : key = "q"
    · rw [if_pos k9] at h
      simp only [Except.ok.injEq] at h
      subst h
      exact ⟨i1, i2, i3⟩
    rw [if_neg k9] at h
    by_cases k10 : pyIsnumeric key = true
    · rw [if_pos k10] at h
      simp only [Except.ok.injEq] at h
      subst h
      have hpow : (0 : Int) < 2 ^ ((pyInt? key).getD 0).toNat :=
        pow_pos (by omega) _
      exact ⟨i1, i2,
        show (1 : Int) ≤ 2 ^ ((pyInt? key).getD 0).toNat by omega⟩
    rw [if_neg k10] at h
    exact finishDraw_inv _ _ _ h ⟨i1, i2, i3⟩

/-- The result of pressing space on the concrete one-frame state, for the
invariant witness. -/
def c9r : KeyResult :=
  match on_key_press (" ") exSt Fig.init with
  | .ok r => r
  | .error _ => ⟨exSt, Fig.init, false, none, false⟩

/-- C9 witness: the initial concrete state satisfies the invariant and the
space key keeps it. -/
theorem c9_witness : StInv (KState.init ("trench.srf") exParsed) ∧
    StInv c9r.st :=
  ⟨(c9_theorem ("trench.srf") exParsed (" ") exSt Fig.init c9r).1 (by decide),
   (c9_theorem ("trench.srf") exParsed (" ") exSt Fig.init c9r).2 (by decide)
     rfl⟩

/-! ## C5 — cumulative mode renders each frame at most once -/

theorem boundsStep_lines (st : KState) (f f' : Fig)
    (h : boundsStep st f = .ok f') : f'.lines = f.lines := by
  unfold boundsStep at h
  split at h
  · split at h
    · exact Except.noConfusion h
    · simp only [Except.ok.injEq] at h
      subst h
      rfl
  · simp only [Except.ok.injEq] at h
    subst h
    rfl

theorem aspectStep_lines (st : KState) (f : Fig) :
    (aspectStep st f).lines = f.lines := by
  unfold aspectStep
  split <;> rfl

theorem clearStep_cumulative (st : KState) (fig : Fig)
    (hc : st.deletePlotMode = false) : clearStep st fig = .ok (st, fig) := by
  unfold clearStep
  rw [if_neg (by simp [hc])]

/-- With the clear branch skipped, update_plot is draw-then-bounds. -/
theorem update_plot_cumulative (st : KState) (fig : Fig)
    (hc : st.deletePlotMode = false) :
    update_plot st fig =
      match drawStep st fig with
      | .error e => .error e
      | .ok (st2, fig2) =>
        match boundsStep st2 fig2 with
        | .error e => .error e
        | .ok fig3 => .ok (st2, decorate (aspectStep st2 fig3)) := by
  unfold update_plot
  rw [clearStep_cumulative st fig hc]

/-- C5: with cumulative display (deletePlotMode off) a render pass is
idempotent per frame index: if the current frame is already marked plotted,
update_plot draws nothing — the plotted lines and the flags are unchanged —
and if it is not yet marked, exactly its curve is appended once and its flag
set. -/
theorem c5_theorem (st : KState) (fig : Fig)
    (hc : st.deletePlotMode = false) :
    (∀ r, pyGet st.alreadyPlottedList st.surfaceIndex = .ok true →
       update_plot st fig = .ok r →
       r.1.alreadyPlottedList = st.alreadyPlottedList ∧
       r.2.lines = fig.lines) ∧
    (∀ r, pyGet st.alreadyPlottedList st.surfaceIndex = .ok false →
       update_plot st fig = .ok r →
       ∃ xs ys t apl,
         pyGet st.xPointsList st.surfaceIndex = .ok xs ∧
         pyGet st.yPointsList st.surfaceIndex = .ok ys ∧
         pyGet st.timeList st.surfaceIndex = .ok t ∧
         pySet st.alreadyPlottedList st.surfaceIndex true = .ok apl ∧
         r.1.alreadyPlottedList = apl ∧
         r.2.lines = fig.lines ++ [(xs, ys, t)]) := by
  constructor
  · intro r hflag h
    have hdraw : drawStep st fig = .ok (st, fig) := by
      unfold drawStep
      rw [hflag]
      simp
    have hup : update_plot st fig =
        match boundsStep st fig with
        | .error e => .error e
        | .ok fig3 => .ok (st, decorate (aspectStep st fig3)) := by
      rw [update_plot_cumulative st fig hc, hdraw]
    rw [hup] at h
    cases hb : boundsStep st fig with
    | error e => rw [hb] at h; exact Except.noConfusion h
    | ok fig3 =>
      rw [hb] at h
      simp only [Except.ok.injEq] at h
      subst h
      refine ⟨rfl, ?_⟩
      show (decorate (aspectStep st fig3)).lines = fig.lines
      have hd : (decorate (aspectStep st fig3)).lines =
          (aspectStep st fig3).lines := rfl
      rw [hd, aspectStep_lines, boundsStep_lines st fig fig3 hb]
  · intro r hflag h
    cases hx : pyGet st.xPointsList st.surfaceIndex with
    | error e =>
      have hdraw : drawStep st fig = .error e := by
        unfold drawStep
        rw [hflag]
        simp [hx]
      rw [update_plot_cumulative st fig hc, hdraw] at h
      exact Except.noConfusion h
    | ok xs =>
    cases hy : pyGet st.yPointsList st.surfaceIndex with
    | error e =>
      have hdraw : drawStep st fig = .error e := by
        unfold drawStep
        rw [hflag]
        simp [hx, hy]
      rw [update_plot_cumulative st fig hc, hdraw] at h
      exact Except.noConfusion h
    | ok ys =>
    cases ht : pyGet st.timeList st.surfaceIndex with
    | error e =>
      have hdraw : drawStep st fig = .error e := by
        unfold drawStep
        rw [hflag]
        simp [hx, hy, ht]
      rw [update_plot_cumulative st fig hc, hdraw] at h
      exact Except.noConfusion h
    | ok t =>
    cases hs : pySet st.alreadyPlottedList st.surfaceIndex true with
    | error e =>
      have hdraw : drawStep st fig = .error e := by
        unfold drawStep
        rw [hflag]
        simp [hx, hy, ht, hs]
      rw [update_plot_cumulative st fig hc, hdraw] at h
      exact Except.noConfusion h
    | ok apl =>
      have hdraw : drawStep st fig =
          .ok ({ st with alreadyPlottedList := apl },
               { fig with lines := fig.lines ++ [(xs, ys, t)] }) := by
        unfold drawStep
        rw [hflag]
        simp [hx, hy, ht, hs]
      have hup : update_plot st fig =
          match boundsStep { st with alreadyPlottedList := apl }
              { fig with lines := fig.lines ++ [(xs, ys, t)] } with
          | .error e => .error e
          | .ok fig3 =>
            .ok ({ st with alreadyPlottedList := apl },
                 decorate (aspectStep { st with alreadyPlottedList := apl }
                   fig3)) := by
        rw [update_plot_cumulative st fig hc, hdraw]
      rw [hup] at h
      cases hb : boundsStep { st with alreadyPlottedList := apl }
          { fig with lines := fig.lines ++ [(xs, ys, t)] } with
      | error e => rw [hb] at h; exact Except.noConfusion h
      | ok fig3 =>
        rw [hb] at h
        simp only [Except.ok.injEq] at h
        subst h
        refine ⟨xs, ys, t, apl, rfl, rfl, rfl, rfl, rfl, ?_⟩
        have hd : ∀ f, (decorate f).lines = f.lines := fun f => rfl
        show (decorate (aspectStep { st with alreadyPlottedList := apl }
          fig3)).lines = fig.lines ++ [(xs, ys, t)]
        rw [hd, aspectStep_lines,
            boundsStep_lines _ _ fig3 hb]

/-- The concrete cumulative state whose only frame is already plotted. -/
def c5st : KState :=
  { exSt with deletePlotMode := false, alreadyPlottedList := [true] }

/-- The render result on that state. -/
def c5r : KState × Fig :=
  match update_plot c5st Fig.init with
  | .ok r => r
  | .error _ => (c5st, Fig.init)

/-- C5 witness: rendering the concrete cumulative state whose frame is
already plotted changes neither the flags nor the plotted lines. -/
theorem c5_witness :
    c5r.1.alreadyPlottedList = c5st.alreadyPlottedList ∧
    c5r.2.lines = Fig.init.lines :=
  (c5_theorem c5st Fig.init rfl).1 c5r rfl rfl

/-! ## Facts about the split function -/

theorem pySplitCh_ne_nil (sep : Char) (l : List Char) :
    pySplitCh sep l ≠ [] := by
  cases l with
  | nil => simp [pySplitCh]
  | cons c cs =>
    unfold pySplitCh
    split
    · simp
    · split <;> simp

theorem pySplitCh_cons_sep (sep : Char) (l : List Char) :
    pySplitCh sep (sep :: l) = [] :: pySplitCh sep l := by
  conv_lhs => unfold pySplitCh
  cases h : pySplitCh sep l with
  | nil => exact absurd h (pySplitCh_ne_nil sep l)
  | cons t ts => simp

theorem pySplitCh_cons_nosep (sep c : Char) (hc : c ≠ sep) (l : List Char) :
    pySplitCh sep (c :: l) =
      (c :: (pySplitCh sep l).headI) :: (pySplitCh sep l).tail := by
  conv_lhs => unfold pySplitCh
  cases h : pySplitCh sep l with
  | nil => exact absurd h (pySplitCh_ne_nil sep l)
  | cons t ts => simp [hc]

theorem pySplitCh_append_nosep (sep : Char) (a l : List Char)
    (ha : sep ∉ a) :
    pySplitCh sep (a ++ l) =
      (a ++ (pySplitCh sep l).headI) :: (pySplitCh sep l).tail := by
  induction a with
  | nil =>
    simp only [List.nil_append]
    cases h : pySplitCh sep l with
    | nil => exact absurd h (pySplitCh_ne_nil sep l)
    | cons t ts => simp
  | cons c a ih =>
    have hc : c ≠ sep := fun e => ha (e ▸ List.mem_cons_self c a)
    rw [List.cons_append, pySplitCh_cons_nosep sep c hc (a ++ l),
        ih (fun m => ha (List.mem_cons_of_mem c m))]
    simp

theorem pySplitCh_no_sep (sep : Char) (a : List Char) (ha : sep ∉ a) :
    pySplitCh sep a = [a] := by
  have h := pySplitCh_append_nosep sep a [] ha
  simpa [pySplitCh] using h

/-! ## C6 — the snapshot name keeps only the part before the first dot -/

theorem savedName_single_dot (cs : List Char) (hc : '.' ∉ cs) :
    savedName (String.mk (cs ++ ('.' :: "srf".1))) =
      String.mk cs ++ (".png") := by
  unfold savedName
  rw [show (String.mk (cs ++ ('.' :: "srf".1))).1 = cs ++ ('.' :: "srf".1)
        from rfl,
      pySplitCh_append_nosep '.' cs _ hc, pySplitCh_cons_sep]
  simp

/-- C6 amended: the s key writes to the text before the first dot of the
source path with png appended; this equals the base name with the extension
replaced exactly when the part before the extension separator contains no
further dot.  Amended theorem: for every stem without a dot, a filename
stem.srf is saved as stem.png. -/
theorem c6_theorem (cs : List Char) (st : KState) (fig : Fig)
    (hc : '.' ∉ cs)
    (hf : st.filename = String.mk (cs ++ ('.' :: "srf".1))) :
    on_key_press ("s") st fig =
      .ok ⟨st, fig, false, some (String.mk cs ++ (".png")), false⟩ := by
  have h : on_key_press ("s") st fig =
      .ok ⟨st, fig, false, some (savedName st.filename), false⟩ := rfl
  rw [h, hf, savedName_single_dot cs hc]

/-- C6 witness: the concrete state over trench.srf saves to trench.png. -/
theorem c6_witness :
    on_key_press ("s") exSt Fig.init =
      .ok ⟨exSt, Fig.init, false, some ("trench.png"), false⟩ := by
  have h := c6_theorem ("trench".1) exSt Fig.init (by decide) (by decide)
  rw [show (String.mk ("trench".1) ++ (".png") : String) = ("trench.png")
        from by decide] at h
  exact h

/-! ## C10 — a blank line anywhere makes the parse fail -/

theorem processLine_blank (st : PSt) :
    processLine st ("") = .error .valueError := rfl

theorem processLines_blank (lines : List String) (st : PSt)
    (h : ("") ∈ lines) : (processLines st lines).isOk = false := by
  induction lines generalizing st with
  | nil => cases h
  | cons l ls ih =>
    unfold processLines
    rcases List.mem_cons.mp h with h1 | h2
    · subst h1
      rw [processLine_blank]
      rfl
    · cases hp : processLine st l with
      | error e => rfl
      | ok st' => exact ih st' h2

/-- C10: every line without the header marker is treated as a data line and
must split into two numeric fields, so any file containing a blank line —
for example a trailing empty line after the last data line of an otherwise
well-formed file — fails to parse. -/
theorem c10_theorem (fn : String) (lines : List String) (h : ("") ∈ lines) :
    (read_srf_file fn lines).isOk = false := by
  unfold read_srf_file
  split
  · cases hp : processLines initPSt lines with
    | error e => rfl
    | ok st =>
      have hb := processLines_blank lines initPSt h
      rw [hp] at hb
      exact Bool.noConfusion
        ((rfl : (Except.ok st : Except PyErr PSt).isOk = true).symm.trans hb)
  · rfl

/-- C10 witness: a well-formed one-frame file with a trailing blank line is
rejected. -/
theorem c10_witness :
    (("") ∈ ["surface: 1.0 1 x-positions y-positions", "0.0 0.0", ""]) ∧
    (read_srf_file ("trench.srf")
       ["surface: 1.0 1 x-positions y-positions", "0.0 0.0", ""]).isOk =
      false :=
  ⟨by decide, c10_theorem ("trench.srf") _ (by decide)⟩

/-! ## C1 — more data lines than declared always fail -/

theorem ofOption_ok (e : PyErr) (o : Option α) (a : α)
    (h : ofOption e o = .ok a) : o = some a := by
  cases o with
  | none => exact Except.noConfusion h
  | some b =>
    simp only [ofOption, Except.ok.injEq] at h
    rw [h]

theorem setNth_some (l : List α) (n : Nat) (v : α) (l' : List α)
    (h : setNth l n v = some l') : l'.length = l.length ∧ n < l.length := by
  induction l generalizing n l' with
  | nil => exact Option.noConfusion h
  | cons a t ih =>
    cases n with
    | zero =>
      simp only [setNth, Option.some.injEq] at h
      subst h
      simp
    | succ n =>
      simp only [setNth, Option.map_eq_some'] at h
      obtain ⟨t', ht', h⟩ := h
      subst h
      have := ih n t' ht'
      simp
      omega

/-- A successfully processed data line: the cursor was inside the current
buffers and moved one forward, the buffer sizes are unchanged. -/
theorem processLine_data (st : PSt) (line : String) (st' : PSt)
    (hm : hasSub markerChars line.1 = false)
    (h : processLine st line = .ok st') :
    ∃ xs ys xs' ys', st.cur = some (xs, ys) ∧ st'.cur = some (xs', ys') ∧
      xs'.length = xs.length ∧ ys'.length = ys.length ∧
      st.j < xs.length ∧ st'.j = st.j + 1 := by
  unfold processLine at h
  rw [if_neg (by simp [hm])] at h
  simp only [] at h
  split at h
  · exact Except.noConfusion h
  next xStr hx0 =>
  split at h
  · exact Except.noConfusion h
  next x hxf =>
  split at h
  · exact Except.noConfusion h
  next xs ys hcur =>
  split at h
  · exact Except.noConfusion h
  next xs' hsx =>
  split at h
  · exact Except.noConfusion h
  next yStr hy0 =>
  split at h
  · exact Except.noConfusion h
  next y hyf =>
  split at h
  · exact Except.noConfusion h
  next ys' hsy =>
  simp only [Except.ok.injEq] at h
  subst h
  have hxl := setNth_some xs st.j (some x) xs' (ofOption_ok _ _ _ hsx)
  have hyl := setNth_some ys st.j (some y) ys' (ofOption_ok _ _ _ hsy)
  exact ⟨xs, ys, xs', ys', hcur, rfl, hxl.1, hyl.1, hxl.2, rfl⟩

/-- The declared point count of a header line, read off the line the same
way the parser does. -/
def headerDeclared (line : String) : Option Int :=
  if hasSub markerChars line.1 then
    ((pySplit ' ' line).get? 2).bind pyInt?
  else none

theorem pyGet_ok_get? (l : List α) (i : Int) (hi : 0 ≤ i) (a : α)
    (h : pyGet l i = .ok a) : l.get? i.toNat = some a := by
  unfold pyGet at h
  simp only [] at h
  rw [if_neg (by omega : ¬i < 0), if_neg (by omega : ¬i < 0)] at h
  cases hg : l.get? i.toNat with
  | none => rw [hg] at h; exact Except.noConfusion h
  | some b =>
    rw [hg] at h
    simp only [Except.ok.injEq] at h
    rw [h]

/-- A successfully processed header line: fresh buffers of exactly the
declared size, cursor reset. -/
theorem processLine_header (st : PSt) (line : String) (st' : PSt) (n : Int)
    (hh : headerDeclared line = some n)
    (h : processLine st line = .ok st') :
    st'.cur =
      some (List.replicate n.toNat none, List.replicate n.toNat none) ∧
    st'.j = 0 := by
  unfold headerDeclared at hh
  by_cases hm : hasSub markerChars line.1 = true
  case neg => rw [if_neg hm] at hh; exact Option.noConfusion hh
  rw [if_pos hm] at hh
  unfold processLine at h
  rw [if_pos hm] at h
  simp only [] at h
  split at h
  · exact Except.noConfusion h
  next tStr h1 =>
  split at h
  · exact Except.noConfusion h
  next t htf =>
  split at h
  · exact Except.noConfusion h
  next nStr h2 =>
  split at h
  · exact Except.noConfusion h
  next n' hni =>
  have hget := pyGet_ok_get? (pySplit ' ' line) 2 (by omega) nStr h2
  rw [show ((2 : Int).toNat) = 2 from rfl] at hget
  rw [hget] at hh
  simp only [Option.some_bind, hni, Option.some.injEq] at hh
  subst hh
  split at h
  · exact Except.noConfusion h
  · simp only [Except.ok.injEq] at h
    subst h
    exact ⟨rfl, rfl⟩

/-- Filling more data lines than the current buffers can hold fails. -/
theorem processLines_overfull (ms : List String) :
    ∀ (st : PSt) (rest : List String) (xs ys : List (Option PyFloat)),
    st.cur = some (xs, ys) →
    (∀ m ∈ ms, hasSub markerChars m.1 = false) →
    st.j ≤ xs.length → xs.length < st.j + ms.length →
    (processLines st (ms ++ rest)).isOk = false := by
  induction ms with
  | nil =>
    intro st rest xs ys hcur hms hj hlen
    simp at hlen
    omega
  | cons m ms ih =>
    intro st rest xs ys hcur hms hj hlen
    rw [List.cons_append]
    unfold processLines
    cases hp : processLine st m with
    | error e => rfl
    | ok st' =>
      obtain ⟨xs0, ys0, xs', ys', hc0, hc', hlx, hly, hjlt, hj'⟩ :=
        processLine_data st m st' (hms m (List.mem_cons_self m ms)) hp
      rw [hcur] at hc0
      simp only [Option.some.injEq, Prod.mk.injEq] at hc0
      obtain ⟨hx0, hy0⟩ := hc0
      subst hx0
      subst hy0
      simp only [List.length_cons] at hlen
      exact ih st' rest xs' ys' hc'
        (fun m hm => hms m (List.mem_cons_of_mem _ hm))
        (by omega) (by omega)

/-- Processing reaches the overfull block and fails, wherever it sits. -/
theorem processLines_reach (pre : List String) :
    ∀ (st : PSt) (hdr : String) (n : Int) (ms rest : List String),
    headerDeclared hdr = some n → 0 ≤ n →
    ms.length = n.toNat + 1 →
    (∀ m ∈ ms, hasSub markerChars m.1 = false) →
    (processLines st (pre ++ hdr :: (ms ++ rest))).isOk = false := by
  induction pre with
  | nil =>
    intro st hdr n ms rest hh hn hml hms
    rw [List.nil_append]
    unfold processLines
    cases hp : processLine st hdr with
    | error e => rfl
    | ok st' =>
      obtain ⟨hcur, hj⟩ := processLine_header st hdr st' n hh hp
      refine processLines_overfull ms st' rest _ _ hcur hms ?_ ?_
      · rw [hj]
        simp
      · rw [hj]
        simp [hml]
  | cons p pre ih =>
    intro st hdr n ms rest hh hn hml hms
    rw [List.cons_append]
    unfold processLines
    cases hp : processLine st p with
    | error e => rfl
    | ok st' => exact ih st' hdr n ms rest hh hn hml hms

/-- C1 amended: whenever some header line declaring n points is followed by
n + 1 data lines (no header among them), read_srf_file fails — the store
into the full buffer raises — while a header followed by fewer data lines
than declared is accepted (see the counterexample), so only the overfull
direction of the claimed count check exists. -/
theorem c1_theorem (fn : String) (pre : List String) (hdr : String)
    (ms rest : List String) (n : Int)
    (hh : headerDeclared hdr = some n) (hn : 0 ≤ n)
    (hml : ms.length = n.toNat + 1)
    (hms : ∀ m ∈ ms, hasSub markerChars m.1 = false) :
    (read_srf_file fn (pre ++ hdr :: (ms ++ rest))).isOk = false := by
  unfold read_srf_file
  split
  · cases hp : processLines initPSt (pre ++ hdr :: (ms ++ rest)) with
    | error e => rfl
    | ok st =>
      have hb := processLines_reach pre initPSt hdr n ms rest hh hn hml hms
      rw [hp] at hb
      exact Bool.noConfusion
        ((rfl : (Except.ok st : Except PyErr PSt).isOk = true).symm.trans hb)
  · rfl

/-- C1 witness: a header declaring 1 point followed by 2 data lines is
rejected. -/
theorem c1_witness :
    headerDeclared ("surface: 1.0 1 x-positions y-positions") = some 1 ∧
    (read_srf_file ("trench.srf")
       ([] ++ ("surface: 1.0 1 x-positions y-positions") ::
         ((["0.0 0.0", "1.0 1.0"] : List String) ++ []))).isOk = false :=
  ⟨by decide,
   c1_theorem ("trench.srf") [] ("surface: 1.0 1 x-positions y-positions")
     ["0.0 0.0", "1.0 1.0"] [] 1 (by decide) (by decide) (by decide)
     (by decide)⟩

/-! ## C7 — the single-space round trip -/

theorem strData_append (s t : String) : (s ++ t).1 = s.1 ++ t.1 := rfl

theorem strMk_data (s : String) : String.mk s.1 = s := rfl

theorem matchesAt_append_self (p l : List Char) :
    matchesAt p (p ++ l) = true := by
  induction p with
  | nil => rfl
  | cons c cs ih => simp [matchesAt, ih]

theorem hasSub_self_append (l : List Char) :
    hasSub markerChars (markerChars ++ l) = true := by
  rw [show markerChars ++ l = 's' :: ("urface:".1 ++ l) from rfl]
  unfold hasSub
  rw [show matchesAt markerChars ('s' :: ("urface:".1 ++ l)) = true from
        matchesAt_append_self markerChars l]
  simp

theorem matchesAt_mem (p : List Char) :
    ∀ l, matchesAt p l = true → ∀ c ∈ p, c ∈ l := by
  induction p with
  | nil =>
    intro l _ c hc
    cases hc
  | cons a p ih =>
    intro l h c hc
    cases l with
    | nil => simp [matchesAt] at h
    | cons b l =>
      simp only [matchesAt, Bool.and_eq_true, decide_eq_true_eq] at h
      rcases List.mem_cons.mp hc with h1 | h1
      · subst h1
        simp [h.1]
      · exact List.mem_cons_of_mem _ (ih l h.2 c h1)

theorem hasSub_mem (p l : List Char) (h : hasSub p l = true) :
    ∀ c ∈ p, c ∈ l := by
  induction l with
  | nil =>
    intro c hc
    unfold hasSub at h
    cases p with
    | nil => cases hc
    | cons a q => simp [matchesAt] at h
  | cons b l ih =>
    unfold hasSub at h
    rcases (Bool.or_eq_true _ _).mp h with h1 | h2
    · exact matchesAt_mem p (b :: l) h1
    · intro c hc
      exact List.mem_cons_of_mem _ (ih h2 c hc)

theorem no_marker_of_no_colon (l : List Char) (h : ':' ∉ l) :
    hasSub markerChars l = false := by
  cases hb : hasSub markerChars l
  · rfl
  · exact absurd (hasSub_mem markerChars l hb ':' (by decide)) h

/-- The source shape of one well-formed frame block: a time token, a count
token, and one pair of coordinate tokens per data line. -/
structure SrcFrame where
  tTok : String
  nTok : String
  pts : List (String × String)

/-- The two column captions at the end of a header line. -/
def xyPosChars : List Char := "x-positions".1 ++ ' ' :: "y-positions".1

/-- Renders the header line of a block: the marker, the time token, the
count token and the two column captions, separated by single spaces. -/
def headerLineOf (f : SrcFrame) : String :=
  String.mk (markerChars ++ ' ' :: (f.tTok.1 ++ ' ' :: (f.nTok.1 ++ ' ' ::
    xyPosChars)))

/-- Renders one data line: the two tokens separated by a single space. -/
def dataLineOf (p : String × String) : String :=
  String.mk (p.1.1 ++ ' ' :: p.2.1)

/-- Renders one block: header line then data lines. -/
def frameLinesOf (f : SrcFrame) : List String :=
  headerLineOf f :: f.pts.map dataLineOf

/-- Renders a whole single-space-separated file. -/
def fileLinesOf (fs : List SrcFrame) : List String :=
  (fs.map frameLinesOf).flatten

/-- A usable coordinate token: parses as a float, and contains no space (so
the split keeps it whole) and no colon (so the line is no header). -/
abbrev goodPt (p : String × String) : Prop :=
  (pyFloat? p.1).isSome = true ∧ ' ' ∉ p.1.1 ∧ ':' ∉ p.1.1 ∧
  (pyFloat? p.2).isSome = true ∧ ' ' ∉ p.2.1 ∧ ':' ∉ p.2.1

/-- A well-formed source block: valid space-free time token, count token
denoting exactly the number of data lines, valid coordinate tokens. -/
abbrev wfFrame (f : SrcFrame) : Prop :=
  (pyFloat? f.tTok).isSome = true ∧ ' ' ∉ f.tTok.1 ∧
  pyInt? f.nTok = some (f.pts.length : Int) ∧ ' ' ∉ f.nTok.1 ∧
  ∀ p ∈ f.pts, goodPt p

theorem pySplit_dataLine (x y : String) (hx : ' ' ∉ x.1) (hy : ' ' ∉ y.1) :
    pySplit ' ' (dataLineOf (x, y)) = [x, y] := by
  unfold pySplit dataLineOf
  rw [show (String.mk (x.1 ++ ' ' :: y.1)).1 = x.1 ++ ' ' :: y.1 from rfl,
      pySplitCh_append_nosep ' ' x.1 (' ' :: y.1) hx, pySplitCh_cons_sep,
      pySplitCh_no_sep ' ' y.1 hy]
  simp [strMk_data]

theorem pySplit_headerLine (f : SrcFrame) (ht : ' ' ∉ f.tTok.1)
    (hn : ' ' ∉ f.nTok.1) :
    pySplit ' ' (headerLineOf f) =
      [("surface:"), f.tTok, f.nTok, ("x-positions"), ("y-positions")] := by
  unfold pySplit headerLineOf
  rw [show (String.mk (markerChars ++ ' ' :: (f.tTok.1 ++ ' ' ::
        (f.nTok.1 ++ ' ' :: xyPosChars)))).1 =
      markerChars ++ ' ' :: (f.tTok.1 ++ ' ' :: (f.nTok.1 ++ ' ' ::
        xyPosChars)) from rfl,
      pySplitCh_append_nosep ' ' markerChars _ (by decide),
      pySplitCh_cons_sep,
      pySplitCh_append_nosep ' ' f.tTok.1 _ ht,
      pySplitCh_cons_sep,
      pySplitCh_append_nosep ' ' f.nTok.1 _ hn,
      pySplitCh_cons_sep,
      show pySplitCh ' ' xyPosChars =
        [("x-positions").1, ("y-positions").1] from by decide]
  simp [strMk_data]
  rfl

theorem setNth_split (l : List α) (j : Nat) (v : α) (h : j < l.length) :
    setNth l j v = some (l.take j ++ v :: l.drop (j + 1)) := by
  induction l generalizing j with
  | nil => simp at h
  | cons a t ih =>
    cases j with
    | zero => simp [setNth]
    | succ j =>
      simp only [List.length_cons, Nat.add_lt_add_iff_right] at h
      simp [setNth, ih j h]

theorem pyGet_cons_zero (a : α) (l : List α) : pyGet (a :: l) 0 = .ok a := rfl

theorem pyGet_cons_one (a b : α) (l : List α) :
    pyGet (a :: b :: l) 1 = .ok b := rfl

/-- Processing one rendered data line stores the two parsed values at the
cursor and advances it. -/
theorem processLine_dataLine (st : PSt) (x y : String)
    (xs ys : List (Option PyFloat)) (hcur : st.cur = some (xs, ys))
    (hp : goodPt (x, y)) (hjx : st.j < xs.length) (hjy : st.j < ys.length) :
    processLine st (dataLineOf (x, y)) =
      .ok { st with
              cur := some
                (xs.take st.j ++ pyFloat? x :: xs.drop (st.j + 1),
                 ys.take st.j ++ pyFloat? y :: ys.drop (st.j + 1)),
              j := st.j + 1 } := by
  obtain ⟨hxf, hxs, hxc, hyf, hys, hyc⟩ := hp
  obtain ⟨vx, hvx⟩ := Option.isSome_iff_exists.mp hxf
  obtain ⟨vy, hvy⟩ := Option.isSome_iff_exists.mp hyf
  have hmk : hasSub markerChars (dataLineOf (x, y)).1 = false := by
    apply no_marker_of_no_colon
    intro hmem
    rw [show (dataLineOf (x, y)).1 = x.1 ++ ' ' :: y.1 from rfl] at hmem
    rcases List.mem_append.mp hmem with h1 | h1
    · exact hxc h1
    · rcases List.mem_cons.mp h1 with h2 | h2
      · cases h2
      · exact hyc h2
  unfold processLine
  rw [if_neg (by simp [hmk])]
  simp only [pySplit_dataLine x y hxs hys, pyGet_cons_zero, pyGet_cons_one,
    hvx, hvy, hcur, npStore, setNth_split xs st.j (some vx) hjx,
    setNth_split ys st.j (some vy) hjy, ofOption]

/-- Processing the rendered data lines of a full block fills the current
buffers slot by slot. -/
theorem processLines_cons_ok (st st' : PSt) (l : String) (ls : List String)
    (h : processLine st l = .ok st') :
    processLines st (l :: ls) = processLines st' ls := by
  conv_lhs => unfold processLines
  rw [h]

theorem processLines_fill (pts : List (String × String)) :
    ∀ (st : PSt) (xs ys : List (Option PyFloat)) (rest : List String),
    st.cur = some (xs, ys) →
    (∀ p ∈ pts, goodPt p) →
    xs.length = st.j + pts.length → ys.length = st.j + pts.length →
    processLines st (pts.map dataLineOf ++ rest) =
      processLines
        { st with
            cur := some (xs.take st.j ++ pts.map (fun p => pyFloat? p.1),
                         ys.take st.j ++ pts.map (fun p => pyFloat? p.2)),
            j := st.j + pts.length } rest := by
  induction pts with
  | nil =>
    intro st xs ys rest hcur hpts hlx hly
    simp only [List.length_nil, Nat.add_zero] at hlx hly
    have hx : xs.take st.j = xs := by
      rw [← hlx]
      exact List.take_length xs
    have hy : ys.take st.j = ys := by
      rw [← hly]
      exact List.take_length ys
    simp only [List.map_nil, List.nil_append, List.append_nil, hx, hy,
      List.length_nil, Nat.add_zero]
    rw [← hcur]
  | cons p pts ih =>
    obtain ⟨px, py⟩ := p
    intro st xs ys rest hcur hpts hlx hly
    simp only [List.length_cons] at hlx hly
    have hjx : st.j < xs.length := by omega
    have hjy : st.j < ys.length := by omega
    have hgood := hpts (px, py) (List.mem_cons_self (px, py) pts)
    have hlt : (xs.take st.j).length = st.j := by
      rw [List.length_take]
      omega
    have hlt2 : (ys.take st.j).length = st.j := by
      rw [List.length_take]
      omega
    rw [List.map_cons, List.cons_append,
        processLines_cons_ok st _ _ _
          (processLine_dataLine st px py xs ys hcur hgood hjx hjy),
        ih _ (xs.take st.j ++ pyFloat? px :: xs.drop (st.j + 1))
          (ys.take st.j ++ pyFloat? py :: ys.drop (st.j + 1)) rest rfl
          (fun q hq => hpts q (List.mem_cons_of_mem (px, py) hq))
          (by
            simp only [List.length_append, List.length_cons,
              List.length_drop, hlt]
            omega)
          (by
            simp only [List.length_append, List.length_cons,
              List.length_drop, hlt2]
            omega)]
    have htx : (xs.take st.j ++ pyFloat? px :: xs.drop (st.j + 1)).take
        (st.j + 1) = xs.take st.j ++ [pyFloat? px] := by
      rw [show st.j + 1 = (xs.take st.j).length + 1 from by omega,
          List.take_append]
      simp
    have hty : (ys.take st.j ++ pyFloat? py :: ys.drop (st.j + 1)).take
        (st.j + 1) = ys.take st.j ++ [pyFloat? py] := by
      rw [show st.j + 1 = (ys.take st.j).length + 1 from by omega,
          List.take_append]
      simp
    congr 1
    · show PSt.mk _ _ _ _ _ _ _ = PSt.mk _ _ _ _ _ _ _
      congr 1
      · rw [htx, hty]
        simp
      · show st.j + 1 + pts.length = st.j + ((px, py) :: pts).length
        simp only [List.length_cons]
        omega

theorem pyGet_cons_two (a b c : α) (l : List α) :
    pyGet (a :: b :: c :: l) 2 = .ok c := rfl

/-- Processing a rendered header line summarises the first block: previous
buffers flushed, time and count appended, fresh buffers allocated. -/
theorem processLine_headerLine (st : PSt) (f : SrcFrame) (vt : PyFloat)
    (hvt : pyFloat? f.tTok = some vt) (hts : ' ' ∉ f.tTok.1)
    (hni : pyInt? f.nTok = some (f.pts.length : Int)) (hns : ' ' ∉ f.nTok.1) :
    processLine st (headerLineOf f) =
      .ok { flushCur st with
              timeList := (flushCur st).timeList ++ [vt]
              nPointList := (flushCur st).nPointList ++
                [(f.pts.length : Int)]
              cur := some (List.replicate f.pts.length none,
                           List.replicate f.pts.length none)
              j := 0
              i := (flushCur st).i + 1 } := by
  unfold processLine
  rw [if_pos (show hasSub markerChars (headerLineOf f).1 = true from
        hasSub_self_append _)]
  simp only [pySplit_headerLine f hts hns, pyGet_cons_one, pyGet_cons_two,
    hvt, hni]
  rw [if_neg (show ¬((f.pts.length : Int) < 0) from by omega)]
  simp

/-- The state one well-formed block leaves behind. -/
def blockSt (st : PSt) (f : SrcFrame) : PSt :=
  { flushCur st with
      timeList := (flushCur st).timeList ++ [(pyFloat? f.tTok).getD ⟨0, 0⟩]
      nPointList := (flushCur st).nPointList ++ [(f.pts.length : Int)]
      cur := some (f.pts.map fun p => pyFloat? p.1,
                   f.pts.map fun p => pyFloat? p.2)
      j := f.pts.length
      i := (flushCur st).i + 1 }

/-- The state a well-formed file leaves behind. -/
def frameFold (st : PSt) : List SrcFrame → PSt
  | [] => st
  | f :: fs => frameFold (blockSt st f) fs

theorem processLines_file (fs : List SrcFrame) :
    ∀ st : PSt, (∀ f ∈ fs, wfFrame f) →
    processLines st (fileLinesOf fs) = .ok (frameFold st fs) := by
  induction fs with
  | nil => intro st _; rfl
  | cons f fs ih =>
    intro st hwf
    obtain ⟨htf, hts, hni, hns, hpts⟩ := hwf f (List.mem_cons_self f fs)
    obtain ⟨vt, hvt⟩ := Option.isSome_iff_exists.mp htf
    rw [show fileLinesOf (f :: fs) =
          headerLineOf f :: (f.pts.map dataLineOf ++ fileLinesOf fs) from by
        simp [fileLinesOf, frameLinesOf]]
    rw [processLines_cons_ok st _ _ _
          (processLine_headerLine st f vt hvt hts hni hns)]
    rw [processLines_fill f.pts _ (List.replicate f.pts.length none)
          (List.replicate f.pts.length none) (fileLinesOf fs) rfl hpts
          (by simp) (by simp)]
    show processLines _ (fileLinesOf fs) = .ok (frameFold (blockSt st f) fs)
    have hX : ({ { flushCur st with
              timeList := (flushCur st).timeList ++ [vt]
              nPointList := (flushCur st).nPointList ++
                [(f.pts.length : Int)]
              cur := some (List.replicate f.pts.length none,
                           List.replicate f.pts.length none)
              j := 0
              i := (flushCur st).i + 1 } with
            cur := some
              ((List.replicate f.pts.length
                  (none : Option PyFloat)).take 0 ++
                 f.pts.map (fun p => pyFloat? p.1),
               (List.replicate f.pts.length
                  (none : Option PyFloat)).take 0 ++
                 f.pts.map (fun p => pyFloat? p.2))
            j := 0 + f.pts.length } : PSt) = blockSt st f := by
      unfold blockSt
      simp [hvt]
    rw [hX]
    exact ih (blockSt st f) (fun g hg => hwf g (List.mem_cons_of_mem f hg))

theorem flushCur_timeList (st : PSt) :
    (flushCur st).timeList = st.timeList := by
  unfold flushCur
  split <;> rfl

theorem flushCur_nPointList (st : PSt) :
    (flushCur st).nPointList = st.nPointList := by
  unfold flushCur
  split <;> rfl

theorem flushCur_i (st : PSt) : (flushCur st).i = st.i := by
  unfold flushCur
  split <;> rfl

theorem frameFold_timeList (fs : List SrcFrame) :
    ∀ st : PSt, (frameFold st fs).timeList =
      st.timeList ++ fs.map (fun f => (pyFloat? f.tTok).getD ⟨0, 0⟩) := by
  induction fs with
  | nil => intro st; simp [frameFold]
  | cons f fs ih =>
    intro st
    show (frameFold (blockSt st f) fs).timeList = _
    rw [ih (blockSt st f)]
    show (flushCur st).timeList ++ _ ++ _ = _
    rw [flushCur_timeList]
    simp

theorem frameFold_nPointList (fs : List SrcFrame) :
    ∀ st : PSt, (frameFold st fs).nPointList =
      st.nPointList ++ fs.map (fun f => (f.pts.length : Int)) := by
  induction fs with
  | nil => intro st; simp [frameFold]
  | cons f fs ih =>
    intro st
    show (frameFold (blockSt st f) fs).nPointList = _
    rw [ih (blockSt st f)]
    show (flushCur st).nPointList ++ _ ++ _ = _
    rw [flushCur_nPointList]
    simp

theorem frameFold_i (fs : List SrcFrame) :
    ∀ st : PSt, (frameFold st fs).i = st.i + fs.length := by
  induction fs with
  | nil => intro st; simp [frameFold]
  | cons f fs ih =>
    intro st
    show (frameFold (blockSt st f) fs).i = _
    rw [ih (blockSt st f)]
    show (flushCur st).i + 1 + fs.length = _
    rw [flushCur_i]
    simp
    omega

theorem frameFold_doneX (fs : List SrcFrame) :
    ∀ st : PSt, (flushCur (frameFold st fs)).doneX =
      (flushCur st).doneX ++
        fs.map (fun f => f.pts.map fun p => pyFloat? p.1) := by
  induction fs with
  | nil => intro st; simp [frameFold]
  | cons f fs ih =>
    intro st
    show (flushCur (frameFold (blockSt st f) fs)).doneX = _
    rw [ih (blockSt st f)]
    show (flushCur (blockSt st f)).doneX ++ _ = _
    rw [show (flushCur (blockSt st f)).doneX =
          (flushCur st).doneX ++ [f.pts.map fun p => pyFloat? p.1] from rfl]
    simp

theorem frameFold_doneY (fs : List SrcFrame) :
    ∀ st : PSt, (flushCur (frameFold st fs)).doneY =
      (flushCur st).doneY ++
        fs.map (fun f => f.pts.map fun p => pyFloat? p.2) := by
  induction fs with
  | nil => intro st; simp [frameFold]
  | cons f fs ih =>
    intro st
    show (flushCur (frameFold (blockSt st f) fs)).doneY = _
    rw [ih (blockSt st f)]
    show (flushCur (blockSt st f)).doneY ++ _ = _
    rw [show (flushCur (blockSt st f)).doneY =
          (flushCur st).doneY ++ [f.pts.map fun p => pyFloat? p.2] from rfl]
    simp

theorem read_srf_file_ok (fn : String) (lines : List String) (st : PSt)
    (hext : (pyEndsWith fn (".srf_save") || pyEndsWith fn (".srf")) = true)
    (h : processLines initPSt lines = .ok st) :
    read_srf_file fn lines =
      .ok ⟨(flushCur st).timeList, (flushCur st).nPointList,
           (flushCur st).doneX, (flushCur st).doneY,
           ((flushCur st).i : Int),
           List.replicate (flushCur st).i false⟩ := by
  unfold read_srf_file
  rw [if_pos hext, h]

/-- C7 amended: for every well-formed file whose fields are separated by
exactly one space, parsing succeeds and extracts precisely the declared
times, point counts and coordinates; separation by wider whitespace fails
(see the counterexample). -/
theorem c7_theorem (fn : String) (fs : List SrcFrame)
    (hext : (pyEndsWith fn (".srf_save") || pyEndsWith fn (".srf")) = true)
    (hwf : ∀ f ∈ fs, wfFrame f) :
    read_srf_file fn (fileLinesOf fs) =
      .ok ⟨fs.map (fun f => (pyFloat? f.tTok).getD ⟨0, 0⟩),
           fs.map (fun f => (f.pts.length : Int)),
           fs.map (fun f => f.pts.map fun p => pyFloat? p.1),
           fs.map (fun f => f.pts.map fun p => pyFloat? p.2),
           (fs.length : Int),
           List.replicate fs.length false⟩ := by
  rw [read_srf_file_ok fn (fileLinesOf fs) (frameFold initPSt fs) hext
        (processLines_file fs initPSt hwf)]
  have hi : (flushCur (frameFold initPSt fs)).i = fs.length := by
    rw [flushCur_i, frameFold_i fs initPSt]
    show 0 + fs.length = fs.length
    omega
  simp only [Except.ok.injEq, Parsed.mk.injEq]
  refine ⟨?_, ?_, ?_, ?_, ?_, ?_⟩
  · rw [flushCur_timeList, frameFold_timeList fs initPSt]
    rfl
  · rw [flushCur_nPointList, frameFold_nPointList fs initPSt]
    rfl
  · rw [frameFold_doneX fs initPSt]
    rfl
  · rw [frameFold_doneY fs initPSt]
    rfl
  · rw [hi]
  · rw [hi]

/-- The concrete well-formed two-point one-frame file for the witness. -/
def c7fs : List SrcFrame :=
  [⟨("1.0"), ("2"), [(("0.0"), ("0.0")), (("1.0"), ("1.0"))]⟩]

/-- C7 witness: the rendered single-space file of one frame with two points
parses to exactly the declared data. -/
theorem c7_witness :
    read_srf_file ("trench.srf") (fileLinesOf c7fs) =
      .ok ⟨c7fs.map (fun f => (pyFloat? f.tTok).getD ⟨0, 0⟩),
           c7fs.map (fun f => (f.pts.length : Int)),
           c7fs.map (fun f => f.pts.map fun p => pyFloat? p.1),
           c7fs.map (fun f => f.pts.map fun p => pyFloat? p.2),
           (c7fs.length : Int),
           List.replicate c7fs.length false⟩ :=
  c7_theorem ("trench.srf") c7fs (by decide) (by decide)

end MiniTopSim
